import Mathlib

/-!
Verification of the AEAD benchmark repository's encrypt/decrypt wrappers and
shared primitives.  Bytes are modelled as `Nat` values (meaningful when `< 256`),
byte buffers as `List Nat`, C pointers that may be `NULL` as `Option` values
(`none` = `NULL`) or explicit null flags for output-only pointers.  Unsigned
32-bit C arithmetic is carried out on `Nat` with explicit reduction `% 2^32`.
-/

/-- Bytewise XOR of two buffers, truncating to the shorter one
(C code only ever XORs buffers of matching length). -/
def xorBytes (a b : List Nat) : List Nat :=
  List.zipWith (fun x y => x ^^^ y) a b

/-- Little-endian decomposition of a natural number into `k` bytes. -/
def natToBytes : Nat → Nat → List Nat
  | 0, _ => []
  | k + 1, x => (x % 256) :: natToBytes k (x / 256)

/-- Little-endian recomposition of a byte buffer into a natural number. -/
def bytesToNat : List Nat → Nat
  | [] => 0
  | b :: bs => (b % 256) + 256 * bytesToNat bs

/-- Zero-pad a block to 16 bytes (the conceptual padding of a final short
chunk described by the spec; never written to caller-visible output). -/
def padBlock (b : List Nat) : List Nat :=
  b ++ List.replicate (16 - b.length) 0

/-- Conversion of a C `unsigned int` value (already reduced mod `2^32`) to the
`int` it converts to on two's-complement platforms. -/
def u32ToInt (x : Nat) : Int :=
  if x < 2 ^ 31 then Int.ofNat x else Int.ofNat x - 2 ^ 32

/-- Value of the `differentbits` accumulator of `crypto_verify_16` /
`crypto_verify_32` after the loop over `n` byte positions: the bitwise OR of
the XOR differences of all byte pairs, with no early exit. -/
def verifyFold (n : Nat) (x y : List Nat) : Nat :=
  (List.range n).foldl (fun acc i => acc ||| (x.getD i 0 ^^^ y.getD i 0)) 0

/-- Embedding of `crypto_verify_16` from `src/aegis-128x2-aesni/test.c`:
OR-accumulate the XOR difference of all 16 byte pairs into `differentbits`,
then compute `(1 & ((differentbits - 1) >> 8)) - 1` in unsigned 32-bit
arithmetic and convert the result to `int`. -/
def crypto_verify_16 (x y : List Nat) : Int :=
  u32ToInt (((1 &&& (((verifyFold 16 x y + (2 ^ 32 - 1)) % 2 ^ 32) >>> 8)) + (2 ^ 32 - 1)) % 2 ^ 32)

/-- Embedding of `crypto_verify_32` from `src/hiae/encrypt.c` (related header
chunk): same computation over 32 byte pairs. -/
def crypto_verify_32 (x y : List Nat) : Int :=
  u32ToInt (((1 &&& (((verifyFold 32 x y + (2 ^ 32 - 1)) % 2 ^ 32) >>> 8)) + (2 ^ 32 - 1)) % 2 ^ 32)

theorem length_natToBytes (k x : Nat) : (natToBytes k x).length = k := by
  induction k generalizing x with
  | zero => rfl
  | succ k ih => simp [natToBytes, ih]

theorem natToBytes_getD_lt (k x i : Nat) : (natToBytes k x).getD i 0 < 256 := by
  induction k generalizing x i with
  | zero => simp [natToBytes]
  | succ k ih =>
    cases i with
    | zero => simpa [natToBytes] using Nat.mod_lt x (by norm_num)
    | succ i => simpa [natToBytes] using ih (x / 256) i

theorem length_xorBytes (a b : List Nat) :
    (xorBytes a b).length = min a.length b.length := by
  simp [xorBytes]

theorem xorBytes_xorBytes (a b : List Nat) (h : a.length ≤ b.length) :
    xorBytes (xorBytes a b) b = a := by
  induction a generalizing b with
  | nil => simp [xorBytes]
  | cons x xs ih =>
    cases b with
    | nil => simp at h
    | cons y ys =>
      simp only [xorBytes, List.zipWith] at *
      rw [Nat.xor_assoc, Nat.xor_self, Nat.xor_zero, ih ys (by simpa using h)]

/-- Bitwise OR of naturals is zero iff both operands are zero. -/
theorem nat_or_eq_zero (a b : Nat) : a ||| b = 0 ↔ a = 0 ∧ b = 0 := by
  constructor
  · intro h
    refine ⟨Nat.zero_of_testBit_eq_false fun i => ?_, Nat.zero_of_testBit_eq_false fun i => ?_⟩
    · have h2 := congrArg (fun n => Nat.testBit n i) h
      simp [Nat.testBit_or] at h2
      exact h2.1
    · have h2 := congrArg (fun n => Nat.testBit n i) h
      simp [Nat.testBit_or] at h2
      exact h2.2
  · rintro ⟨rfl, rfl⟩
    rfl

/-- Folding bitwise OR over a list gives zero iff the seed and every
contribution is zero. -/
theorem foldl_or_eq_zero_iff (f : Nat → Nat) (l : List Nat) (a : Nat) :
    l.foldl (fun acc i => acc ||| f i) a = 0 ↔ a = 0 ∧ ∀ i ∈ l, f i = 0 := by
  induction l generalizing a with
  | nil => simp
  | cons x xs ih =>
    simp only [List.foldl_cons, ih, nat_or_eq_zero, List.mem_cons]
    constructor
    · rintro ⟨⟨ha, hx⟩, hxs⟩
      refine ⟨ha, fun i hi => ?_⟩
      rcases hi with hi | hi
      · exact hi ▸ hx
      · exact hxs i hi
    · rintro ⟨ha, h⟩
      exact ⟨⟨ha, h x (Or.inl rfl)⟩, fun i hi => h i (Or.inr hi)⟩

/-- Folding bitwise OR over byte-sized values stays byte-sized. -/
theorem foldl_or_lt (f : Nat → Nat) (l : List Nat) (a : Nat)
    (ha : a < 256) (hf : ∀ i ∈ l, f i < 256) :
    l.foldl (fun acc i => acc ||| f i) a < 256 := by
  induction l generalizing a with
  | nil => simpa using ha
  | cons x xs ih =>
    simp only [List.foldl_cons]
    exact ih (a ||| f x)
      (Nat.or_lt_two_pow (n := 8) ha (hf x (List.mem_cons_self x xs)))
      (fun i hi => hf i (List.mem_cons_of_mem x hi))

/-- Evaluation of the final expression of the verify functions: zero when no
bit differed, minus one otherwise. -/
theorem u32_verify_expr (d : Nat) (hd : d < 256) :
    u32ToInt (((1 &&& (((d + (2 ^ 32 - 1)) % 2 ^ 32) >>> 8)) + (2 ^ 32 - 1)) % 2 ^ 32)
      = if d = 0 then 0 else -1 := by
  by_cases h : d = 0
  · subst h
    decide
  · have h1 : (d + (2 ^ 32 - 1)) % 2 ^ 32 = d - 1 := by
      have e : d + (2 ^ 32 - 1) = (d - 1) + 2 ^ 32 := by omega
      rw [e, Nat.add_mod_right, Nat.mod_eq_of_lt (by omega)]
    have h2 : (d - 1) >>> 8 = 0 := by
      rw [Nat.shiftRight_eq_div_pow]
      exact Nat.div_eq_of_lt (by omega)
    rw [h1, h2, if_neg h]
    decide

/-- The verify accumulator is zero exactly when all compared byte pairs are
equal. -/
theorem verifyFold_eq_zero_iff (n : Nat) (x y : List Nat) :
    verifyFold n x y = 0 ↔ ∀ i, i < n → x.getD i 0 = y.getD i 0 := by
  unfold verifyFold
  rw [foldl_or_eq_zero_iff]
  constructor
  · intro h i hi
    exact Nat.xor_eq_zero.mp (h.2 i (List.mem_range.mpr hi))
  · intro h
    exact ⟨rfl, fun i hi => Nat.xor_eq_zero.mpr (h i (List.mem_range.mp hi))⟩

/-- The verify accumulator stays below 256 on byte-valued inputs. -/
theorem verifyFold_lt (n : Nat) (x y : List Nat)
    (hb : ∀ i, i < n → x.getD i 0 < 256 ∧ y.getD i 0 < 256) :
    verifyFold n x y < 256 := by
  unfold verifyFold
  refine foldl_or_lt _ _ _ (by norm_num) fun i hi => ?_
  have hi2 := hb i (List.mem_range.mp hi)
  exact Nat.xor_lt_two_pow (n := 8) hi2.1 hi2.2

/-- Characterization of `crypto_verify_16` on byte-valued inputs. -/
theorem crypto_verify_16_eq (x y : List Nat)
    (hb : ∀ i, i < 16 → x.getD i 0 < 256 ∧ y.getD i 0 < 256) :
    crypto_verify_16 x y
      = if ∀ i, i < 16 → x.getD i 0 = y.getD i 0 then 0 else -1 := by
  unfold crypto_verify_16
  rw [u32_verify_expr _ (verifyFold_lt 16 x y hb)]
  by_cases h : ∀ i, i < 16 → x.getD i 0 = y.getD i 0
  · rw [if_pos ((verifyFold_eq_zero_iff 16 x y).mpr h), if_pos h]
  · rw [if_neg (fun hz => h ((verifyFold_eq_zero_iff 16 x y).mp hz)), if_neg h]

/-- Characterization of `crypto_verify_32` on byte-valued inputs. -/
theorem crypto_verify_32_eq (x y : List Nat)
    (hb : ∀ i, i < 32 → x.getD i 0 < 256 ∧ y.getD i 0 < 256) :
    crypto_verify_32 x y
      = if ∀ i, i < 32 → x.getD i 0 = y.getD i 0 then 0 else -1 := by
  unfold crypto_verify_32
  rw [u32_verify_expr _ (verifyFold_lt 32 x y hb)]
  by_cases h : ∀ i, i < 32 → x.getD i 0 = y.getD i 0
  · rw [if_pos ((verifyFold_eq_zero_iff 32 x y).mpr h), if_pos h]
  · rw [if_neg (fun hz => h ((verifyFold_eq_zero_iff 32 x y).mp hz)), if_neg h]

/-- Comparing a byte buffer with itself always verifies. -/
theorem crypto_verify_16_self (t : List Nat) : crypto_verify_16 t t = 0 := by
  unfold crypto_verify_16
  rw [(verifyFold_eq_zero_iff 16 t t).mpr (fun i _ => rfl)]
  decide

/-- State of the HiAE engine: an ordered fixed-length array of 128-bit lanes,
modelled as a list of 8 natural-number blocks.  Modelled from the spec
(section 3, State): the amalgamated HiAE core (`HiAE_amalgamated.c`) is not
part of the sources, only its callers are. -/
def HState := List Nat

/-- Modelled from the spec: one state-update step — every lane advances by one
round of the black-box round function `R` applied to the lane's neighbor, with
the absorbed block XORed into the designated lane.  `R` stands for the
hardware AES single-round primitive, which the spec treats as a black box. -/
def hUpdate (R : Nat → Nat → Nat) (s : HState) (d : Nat) : HState :=
  (List.range 8).map fun i =>
    R (s.getD ((i + 7) % 8) 0) (s.getD i 0) ^^^ (if i = 0 then d else 0)

/-- Modelled from the spec: a fixed number of blank update rounds (absorbing
zero blocks), used by initialization and finalization. -/
def blankRounds (R : Nat → Nat → Nat) : HState → Nat → HState
  | s, 0 => s
  | s, n + 1 => blankRounds R (hUpdate R s 0) n

/-- Modelled from the spec: state initialization from key and nonce — the
lanes are filled from key/nonce material and a fixed number of blank update
rounds is run. -/
def hInit (R : Nat → Nat → Nat) (k n : List Nat) : HState :=
  blankRounds R
    [bytesToNat k, bytesToNat n, bytesToNat k ^^^ bytesToNat n, 0,
     bytesToNat k, bytesToNat n, bytesToNat k ^^^ bytesToNat n, 0] 16

/-- Modelled from the spec: the 16-byte keystream block derived
deterministically from the current state. -/
def hKeystream (R : Nat → Nat → Nat) (s : HState) : List Nat :=
  natToBytes 16 (R (s.getD 0 0) (s.getD 4 0) ^^^ s.getD 7 0)

/-- Modelled from the spec: absorb one (possibly short, zero-padded) chunk of
at most 16 bytes into the state. -/
def hAbsorb (R : Nat → Nat → Nat) (s : HState) (b : List Nat) : HState :=
  hUpdate R s (bytesToNat (padBlock b))

/-- Modelled from the spec: absorption of the associated-data stream in
16-byte chunks, final short chunk zero-padded.  The first argument is fuel
bounding the number of chunks; callers pass the byte length. -/
def adGo (R : Nat → Nat → Nat) : Nat → HState → List Nat → HState
  | 0, s, _ => s
  | _ + 1, s, [] => s
  | fuel + 1, s, a :: rest =>
    adGo R fuel (hAbsorb R s ((a :: rest).take 16)) ((a :: rest).drop 16)

/-- Absorb a whole associated-data byte sequence. -/
def adCore (R : Nat → Nat → Nat) (s : HState) (ad : List Nat) : HState :=
  adGo R ad.length s ad

/-- Modelled from the spec: the encryption stream — each 16-byte plaintext
chunk is XORed with the keystream block to yield ciphertext of the same
length, and the plaintext chunk is absorbed into the state.  Returns the
ciphertext and the final state. -/
def encGo (R : Nat → Nat → Nat) : Nat → HState → List Nat → List Nat × HState
  | 0, s, _ => ([], s)
  | _ + 1, s, [] => ([], s)
  | fuel + 1, s, a :: rest =>
    let b := (a :: rest).take 16
    let cb := xorBytes b (hKeystream R s)
    let r := encGo R fuel (hAbsorb R s b) ((a :: rest).drop 16)
    (cb ++ r.1, r.2)

/-- Modelled from the spec: the decryption stream — symmetric to `encGo`; the
recovered plaintext chunk is absorbed so the state trajectory matches
encryption. -/
def decGo (R : Nat → Nat → Nat) : Nat → HState → List Nat → List Nat × HState
  | 0, s, _ => ([], s)
  | _ + 1, s, [] => ([], s)
  | fuel + 1, s, a :: rest =>
    let cb := (a :: rest).take 16
    let mb := xorBytes cb (hKeystream R s)
    let r := decGo R fuel (hAbsorb R s mb) ((a :: rest).drop 16)
    (mb ++ r.1, r.2)

/-- Modelled from the spec: finalization — absorb the bit lengths of AD and
message, run additional blank rounds, and produce the 16-byte tag as the
XOR-reduction of the final lanes. -/
def hFinalize (R : Nat → Nat → Nat) (s : HState) (adlen mlen : Nat) : List Nat :=
  let s1 := hUpdate R s (bytesToNat (natToBytes 8 (8 * adlen) ++ natToBytes 8 (8 * mlen)))
  let s2 := blankRounds R s1 16
  natToBytes 16 (s2.foldl (fun a b => a ^^^ b) 0)

/-- Modelled from the spec: `HiAE_encrypt` — rejects a key/nonce length
mismatch with `InvalidInputError` before any state work, otherwise runs
init, AD absorption, message encryption and finalization, returning
`(0, ciphertext, tag)`. -/
def HiAE_encrypt (R : Nat → Nat → Nat) (k n m ad : List Nat) :
    Int × List Nat × List Nat :=
  if k.length = 16 ∧ n.length = 16 then
    let s1 := adCore R (hInit R k n) ad
    let r := encGo R m.length s1 m
    (0, r.1, hFinalize R r.2 ad.length m.length)
  else (-1, [], [])

/-- Modelled from the spec: `HiAE_decrypt` — re-derives the state, recovers
the candidate plaintext, recomputes the expected tag, compares it with the
supplied tag in constant time, and releases the plaintext only on a match;
on mismatch it returns `VerificationFailure` and no plaintext bytes. -/
def HiAE_decrypt (R : Nat → Nat → Nat) (k n c tag ad : List Nat) :
    Int × List Nat :=
  if k.length = 16 ∧ n.length = 16 then
    let s1 := adCore R (hInit R k n) ad
    let r := decGo R c.length s1 c
    if crypto_verify_16 (hFinalize R r.2 ad.length c.length) tag = 0 then (0, r.1)
    else (-1, [])
  else (-1, [])

/-- Observable outcome of a `crypto_aead_encrypt` call: the returned `int`,
the bytes written into the caller's `c` buffer (`none` = buffer untouched),
and the value stored through the `clen` pointer (`none` = not written). -/
structure EncOut where
  ret : Int
  cWritten : Option (List Nat)
  clenWritten : Option Nat
deriving DecidableEq, Repr

/-- Observable outcome of a `crypto_aead_decrypt` call: the returned `int`,
the bytes written into the caller's `m` buffer (`none` = buffer untouched),
and the value stored through the `mlen` pointer (`none` = not written). -/
structure DecOut where
  ret : Int
  mWritten : Option (List Nat)
  mlenWritten : Option Nat
deriving DecidableEq, Repr

namespace HiAE

/-- Embedding of `crypto_aead_encrypt` from `src/hiae/encrypt.c`.  `cNull` and
`clenNull` model NULL output pointers; `m`, `ad`, `npub`, `k` are `none` when
the corresponding pointer is NULL, and `mlen`/`adlen` are the declared buffer
lengths (the C code reads exactly that many bytes).  `CRYPTO_ABYTES = 16`. -/
def crypto_aead_encrypt (R : Nat → Nat → Nat) (cNull clenNull : Bool)
    (m : Option (List Nat)) (mlen : Nat) (ad : Option (List Nat)) (adlen : Nat)
    (npub k : Option (List Nat)) : EncOut :=
  if cNull = true ∨ clenNull = true ∨ npub = none ∨ k = none then ⟨-1, none, none⟩
  else if 0 < mlen ∧ m = none then ⟨-1, none, none⟩
  else if 0 < adlen ∧ ad = none then ⟨-1, none, none⟩
  else
    let r := HiAE_encrypt R (k.getD []) (npub.getD []) ((m.getD []).take mlen)
      ((ad.getD []).take adlen)
    if r.1 = 0 then ⟨0, some (r.2.1 ++ r.2.2), some (mlen + 16)⟩
    else ⟨r.1, none, none⟩

/-- Embedding of `crypto_aead_decrypt` from `src/hiae/encrypt.c`.  `mNull` and
`mlenNull` model NULL output pointers; the ciphertext buffer `c` carries
`clen` bytes of which the last 16 are the tag. -/
def crypto_aead_decrypt (R : Nat → Nat → Nat) (mNull mlenNull : Bool)
    (c : Option (List Nat)) (clen : Nat) (ad : Option (List Nat)) (adlen : Nat)
    (npub k : Option (List Nat)) : DecOut :=
  if c = none ∨ npub = none ∨ k = none then ⟨-1, none, none⟩
  else if clen < 16 then ⟨-1, none, none⟩
  else if 0 < clen - 16 ∧ mNull = true then ⟨-1, none, none⟩
  else if 0 < adlen ∧ ad = none then ⟨-1, none, none⟩
  else
    let r := HiAE_decrypt R (k.getD []) (npub.getD []) ((c.getD []).take (clen - 16))
      (((c.getD []).drop (clen - 16)).take 16) ((ad.getD []).take adlen)
    if r.1 = 0 then
      ⟨0, if mNull = true then none else some r.2,
        if mlenNull = true then none else some (clen - 16)⟩
    else ⟨r.1, none, none⟩

end HiAE

theorem length_hKeystream (R : Nat → Nat → Nat) (s : HState) :
    (hKeystream R s).length = 16 :=
  length_natToBytes _ _

theorem encGo_nil (R : Nat → Nat → Nat) (fuel : Nat) (s : HState) :
    encGo R fuel s [] = ([], s) := by
  cases fuel <;> rfl

theorem decGo_nil (R : Nat → Nat → Nat) (fuel : Nat) (s : HState) :
    decGo R fuel s [] = ([], s) := by
  cases fuel <;> rfl

/-- Unfolding of one encryption step in terms of `take`/`drop`. -/
theorem encGo_cons_form (R : Nat → Nat → Nat) (fuel : Nat) (s : HState)
    (m : List Nat) (hm : m ≠ []) :
    encGo R (fuel + 1) s m
      = (xorBytes (m.take 16) (hKeystream R s)
           ++ (encGo R fuel (hAbsorb R s (m.take 16)) (m.drop 16)).1,
         (encGo R fuel (hAbsorb R s (m.take 16)) (m.drop 16)).2) := by
  cases m with
  | nil => exact absurd rfl hm
  | cons a rest => rfl

/-- Unfolding of one decryption step in terms of `take`/`drop`. -/
theorem decGo_cons_form (R : Nat → Nat → Nat) (fuel : Nat) (s : HState)
    (c : List Nat) (hc : c ≠ []) :
    decGo R (fuel + 1) s c
      = (xorBytes (c.take 16) (hKeystream R s)
           ++ (decGo R fuel
                 (hAbsorb R s (xorBytes (c.take 16) (hKeystream R s)))
                 (c.drop 16)).1,
         (decGo R fuel
             (hAbsorb R s (xorBytes (c.take 16) (hKeystream R s)))
             (c.drop 16)).2) := by
  cases c with
  | nil => exact absurd rfl hc
  | cons a rest => rfl

/-- The ciphertext stream has exactly the plaintext's length. -/
theorem encGo_fst_length (R : Nat → Nat → Nat) :
    ∀ fuel s m, m.length ≤ fuel → ((encGo R fuel s m).1).length = m.length := by
  intro fuel
  induction fuel with
  | zero =>
    intro s m hm
    have hnil : m = [] := List.eq_nil_of_length_eq_zero (Nat.le_zero.mp hm)
    subst hnil
    simp [encGo]
  | succ fuel ih =>
    intro s m hm
    cases m with
    | nil => simp [encGo]
    | cons a rest =>
      rw [encGo_cons_form R fuel s (a :: rest) (by simp)]
      have hd : ((a :: rest).drop 16).length ≤ fuel := by
        simp only [List.length_drop]
        simp only [List.length_cons] at hm ⊢
        omega
      simp only [List.length_append, length_xorBytes, length_hKeystream,
        List.length_take, ih _ _ hd, List.length_drop]
      simp only [List.length_cons]
      omega

/-- Round trip of the modelled streaming core: decrypting the ciphertext
stream from the same state recovers the plaintext and the same final state,
for any round function. -/
theorem decGo_encGo (R : Nat → Nat → Nat) :
    ∀ fuel s m, m.length ≤ fuel →
      decGo R fuel s ((encGo R fuel s m).1) = (m, (encGo R fuel s m).2) := by
  intro fuel
  induction fuel with
  | zero =>
    intro s m hm
    have hnil : m = [] := List.eq_nil_of_length_eq_zero (Nat.le_zero.mp hm)
    subst hnil
    simp [encGo, decGo]
  | succ fuel ih =>
    intro s m hm
    cases m with
    | nil => simp [encGo, decGo]
    | cons a rest =>
      set mm := a :: rest with hmm
      have hmne : mm ≠ [] := by simp [hmm]
      rw [encGo_cons_form R fuel s mm hmne]
      by_cases h16 : mm.length ≤ 16
      · have htake : mm.take 16 = mm := List.take_of_length_le h16
        have hdrop : mm.drop 16 = [] := List.drop_eq_nil_of_le h16
        rw [htake, hdrop, encGo_nil]
        have hcblen : (xorBytes mm (hKeystream R s)).length = mm.length := by
          rw [length_xorBytes, length_hKeystream]
          omega
        have hcbne : xorBytes mm (hKeystream R s) ++ [] ≠ [] := by
          simp only [List.append_nil]
          intro hz
          have hlz := congrArg List.length hz
          rw [hcblen] at hlz
          simp only [List.length_nil] at hlz
          exact hmne (List.eq_nil_of_length_eq_zero hlz)
        rw [decGo_cons_form R fuel s _ hcbne]
        simp only [List.append_nil]
        have htake2 : (xorBytes mm (hKeystream R s)).take 16
            = xorBytes mm (hKeystream R s) :=
          List.take_of_length_le (by rw [hcblen]; exact h16)
        have hdrop2 : (xorBytes mm (hKeystream R s)).drop 16 = [] :=
          List.drop_eq_nil_of_le (by rw [hcblen]; exact h16)
        rw [htake2, hdrop2, decGo_nil,
          xorBytes_xorBytes mm (hKeystream R s) (by rw [length_hKeystream]; exact h16)]
        simp
      · have hblen : (mm.take 16).length = 16 := by
          rw [List.length_take]
          omega
        have hcblen : (xorBytes (mm.take 16) (hKeystream R s)).length = 16 := by
          rw [length_xorBytes, length_hKeystream, hblen]
          omega
        have hcbne : xorBytes (mm.take 16) (hKeystream R s)
            ++ (encGo R fuel (hAbsorb R s (mm.take 16)) (mm.drop 16)).1 ≠ [] := by
          intro hz
          have := congrArg List.length hz
          simp [hcblen] at this
        rw [decGo_cons_form R fuel s _ hcbne]
        rw [List.take_left' hcblen, List.drop_left' hcblen]
        rw [xorBytes_xorBytes (mm.take 16) (hKeystream R s)
          (by rw [length_hKeystream, hblen])]
        have hd : (mm.drop 16).length ≤ fuel := by
          simp only [List.length_drop]
          have : mm.length ≤ fuel + 1 := hm
          omega
        rw [ih (hAbsorb R s (mm.take 16)) (mm.drop 16) hd]
        rw [List.take_append_drop]

theorem length_hFinalize (R : Nat → Nat → Nat) (s : HState) (adlen mlen : Nat) :
    (hFinalize R s adlen mlen).length = 16 :=
  length_natToBytes _ _

/-- On well-sized key and nonce, `HiAE_encrypt` succeeds and its ciphertext
has exactly the plaintext's length. -/
theorem HiAE_encrypt_ok (R : Nat → Nat → Nat) (k n m ad : List Nat)
    (hk : k.length = 16) (hn : n.length = 16) :
    (HiAE_encrypt R k n m ad).1 = 0
      ∧ (HiAE_encrypt R k n m ad).2.1.length = m.length
      ∧ (HiAE_encrypt R k n m ad).2.2.length = 16 := by
  simp only [HiAE_encrypt, if_pos (And.intro hk hn)]
  exact ⟨trivial, encGo_fst_length R m.length _ m (Nat.le_refl _), length_hFinalize R _ _ _⟩

/-- Core round trip: decrypting the ciphertext and tag produced by
`HiAE_encrypt` under the same key, nonce and AD succeeds and returns the
original plaintext. -/
theorem HiAE_decrypt_encrypt (R : Nat → Nat → Nat) (k n m ad : List Nat)
    (hk : k.length = 16) (hn : n.length = 16) :
    HiAE_decrypt R k n (HiAE_encrypt R k n m ad).2.1
      (HiAE_encrypt R k n m ad).2.2 ad = (0, m) := by
  simp only [HiAE_encrypt, if_pos (And.intro hk hn)]
  have hctlen : (encGo R m.length (adCore R (hInit R k n) ad) m).1.length
      = m.length :=
    encGo_fst_length R m.length _ m (Nat.le_refl _)
  have hrt := decGo_encGo R m.length (adCore R (hInit R k n) ad) m (Nat.le_refl _)
  simp only [HiAE_decrypt, if_pos (And.intro hk hn), hctlen, hrt,
    crypto_verify_16_self, if_true, ite_true]

/-- The encrypt wrapper on fully valid inputs: returns 0, writes
ciphertext-plus-tag into `c` and `mlen + 16` through `clen`. -/
theorem hiae_wrapper_encrypt (R : Nat → Nat → Nat) (k n m ad : List Nat)
    (hk : k.length = 16) (hn : n.length = 16) :
    HiAE.crypto_aead_encrypt R false false (some m) m.length (some ad) ad.length
      (some n) (some k)
      = ⟨0, some ((HiAE_encrypt R k n m ad).2.1 ++ (HiAE_encrypt R k n m ad).2.2),
          some (m.length + 16)⟩ := by
  have hret := (HiAE_encrypt_ok R k n m ad hk hn).1
  simp [HiAE.crypto_aead_encrypt, hret]

/-- The decrypt wrapper applied to the encrypt wrapper's output buffer:
returns 0, recovers the plaintext, and reports its length through `mlen`
unless that pointer is NULL. -/
theorem hiae_wrapper_roundtrip (R : Nat → Nat → Nat) (k n m ad : List Nat)
    (mlenNull : Bool) (hk : k.length = 16) (hn : n.length = 16) :
    HiAE.crypto_aead_decrypt R false mlenNull
      (some ((HiAE_encrypt R k n m ad).2.1 ++ (HiAE_encrypt R k n m ad).2.2))
      (m.length + 16) (some ad) ad.length (some n) (some k)
      = ⟨0, some m, if mlenNull = true then none else some m.length⟩ := by
  have hok := HiAE_encrypt_ok R k n m ad hk hn
  have hct := hok.2.1
  have htag := hok.2.2
  have hrt := HiAE_decrypt_encrypt R k n m ad hk hn
  have htake : ((HiAE_encrypt R k n m ad).2.1 ++ (HiAE_encrypt R k n m ad).2.2).take
      m.length = (HiAE_encrypt R k n m ad).2.1 := List.take_left' hct
  have hdrop : (((HiAE_encrypt R k n m ad).2.1 ++ (HiAE_encrypt R k n m ad).2.2).drop
      m.length).take 16 = (HiAE_encrypt R k n m ad).2.2 := by
    rw [List.drop_left' hct]
    exact List.take_of_length_le (le_of_eq htag)
  simp [HiAE.crypto_aead_decrypt, htake, hdrop, hrt]

namespace AES128GCM

/-- Embedding of `crypto_aead_encrypt` from `src/unnamed/part_005`
(AES-128-GCM over OpenSSL EVP).  The EVP cipher itself is an external
library, abstracted by two black-box parameters: `ks key npub len` is the
CTR keystream that `EVP_EncryptUpdate`/`EVP_DecryptUpdate` XOR with their
input when writing their output, and `gt key npub ad body` is the 16-byte
GCM tag obtained by `EVP_CTRL_GCM_GET_TAG`.  The modelled EVP calls never
fail, so the early-return error paths of the C code do not fire. -/
def crypto_aead_encrypt (ks : List Nat → List Nat → Nat → List Nat)
    (gt : List Nat → List Nat → List Nat → List Nat → List Nat)
    (k npub ad m : List Nat) : EncOut :=
  ⟨0, some (xorBytes m (ks k npub m.length)
        ++ gt k npub ad (xorBytes m (ks k npub m.length))),
    some (m.length + 16)⟩

/-- Embedding of `crypto_aead_decrypt` from `src/unnamed/part_005`.  The C
code first checks `clen < CRYPTO_ABYTES`, then calls `EVP_DecryptUpdate(ctx,
m, &len, c, clen - 16)` — which writes the candidate plaintext into the
caller's buffer `m` — and only afterwards sets the expected tag and calls
`EVP_DecryptFinal_ex`, whose tag comparison decides success; `*mlen` is
written only on success, but the plaintext bytes written by the earlier
update call remain in `m` either way. -/
def crypto_aead_decrypt (ks : List Nat → List Nat → Nat → List Nat)
    (gt : List Nat → List Nat → List Nat → List Nat → List Nat)
    (k npub ad c : List Nat) (clen : Nat) : DecOut :=
  if clen < 16 then ⟨-1, none, none⟩
  else
    let pt := xorBytes (c.take (clen - 16)) (ks k npub (clen - 16))
    if gt k npub ad (c.take (clen - 16)) = (c.drop (clen - 16)).take 16 then
      ⟨0, some pt, some (clen - 16)⟩
    else ⟨-1, some pt, none⟩

end AES128GCM

/-- GCM round trip: decrypting the encrypt output succeeds and recovers the
plaintext, for every keystream and tag oracle of the right lengths. -/
theorem gcm_roundtrip (ks : List Nat → List Nat → Nat → List Nat)
    (gt : List Nat → List Nat → List Nat → List Nat → List Nat)
    (k npub ad m : List Nat)
    (hks : ∀ a b l, (ks a b l).length = l)
    (hgt : ∀ a b u v, (gt a b u v).length = 16) :
    AES128GCM.crypto_aead_decrypt ks gt k npub ad
      (xorBytes m (ks k npub m.length)
        ++ gt k npub ad (xorBytes m (ks k npub m.length)))
      (m.length + 16)
      = ⟨0, some m, some m.length⟩ := by
  have hclen : ¬(m.length + 16 < 16) := by omega
  have hcl : (xorBytes m (ks k npub m.length)).length = m.length := by
    rw [length_xorBytes, hks]
    omega
  have htake : (xorBytes m (ks k npub m.length)
      ++ gt k npub ad (xorBytes m (ks k npub m.length))).take m.length
      = xorBytes m (ks k npub m.length) := List.take_left' hcl
  have hdrop : ((xorBytes m (ks k npub m.length)
      ++ gt k npub ad (xorBytes m (ks k npub m.length))).drop m.length).take 16
      = gt k npub ad (xorBytes m (ks k npub m.length)) := by
    rw [List.drop_left' hcl]
    exact List.take_of_length_le (le_of_eq (hgt _ _ _ _))
  have hback : xorBytes (xorBytes m (ks k npub m.length)) (ks k npub m.length)
      = m := xorBytes_xorBytes m _ (le_of_eq (hks _ _ _).symm)
  simp only [AES128GCM.crypto_aead_decrypt, if_neg hclen, htake, hdrop, hback,
    Nat.add_sub_cancel, if_pos rfl, if_true, ite_true]

/-- GCM tag mismatch: the call returns -1 and leaves `*mlen` unwritten, but
the candidate plaintext has already been streamed into `m`. -/
theorem gcm_mismatch (ks : List Nat → List Nat → Nat → List Nat)
    (gt : List Nat → List Nat → List Nat → List Nat → List Nat)
    (k npub ad c : List Nat) (clen : Nat) (h16 : 16 ≤ clen)
    (hne : gt k npub ad (c.take (clen - 16)) ≠ (c.drop (clen - 16)).take 16) :
    AES128GCM.crypto_aead_decrypt ks gt k npub ad c clen
      = ⟨-1, some (xorBytes (c.take (clen - 16)) (ks k npub (clen - 16))), none⟩ := by
  simp only [AES128GCM.crypto_aead_decrypt, if_neg (Nat.not_lt.mpr h16), if_neg hne]

/-- Embedding of `aegis128x2_update` from `src/aegis-128x2-vaes/encrypt.c`.
The eight 256-bit lanes are a list of naturals; the hardware primitive
`_mm256_aesenc_epi128` is the black-box parameter `enc`.  The sequence of
`let` rebindings mirrors the C code's in-place assignments, including the
`tmp` copy of lane 7 taken before it is overwritten. -/
def aegis128x2_update (enc : Nat → Nat → Nat) (s : List Nat) (d1 d2 : Nat) :
    List Nat :=
  let tmp := s.getD 7 0
  let s := s.set 7 (enc (s.getD 6 0) (s.getD 7 0))
  let s := s.set 6 (enc (s.getD 5 0) (s.getD 6 0))
  let s := s.set 5 (enc (s.getD 4 0) (s.getD 5 0))
  let s := s.set 4 (enc (s.getD 3 0) (s.getD 4 0))
  let s := s.set 3 (enc (s.getD 2 0) (s.getD 3 0))
  let s := s.set 2 (enc (s.getD 1 0) (s.getD 2 0))
  let s := s.set 1 (enc (s.getD 0 0) (s.getD 1 0))
  let s := s.set 0 (enc tmp (s.getD 0 0))
  let s := s.set 0 (s.getD 0 0 ^^^ d1)
  let s := s.set 4 (s.getD 4 0 ^^^ d2)
  s

/-- The per-lane description of the update given by the spec: every lane
becomes one AES round of its neighbor combined with itself, with `d1` XORed
into lane 0 and `d2` into lane 4. -/
def aegis128x2_update_spec (enc : Nat → Nat → Nat) (s : List Nat) (d1 d2 : Nat) :
    List Nat :=
  (List.range 8).map fun i =>
    if i = 0 then enc (s.getD 7 0) (s.getD 0 0) ^^^ d1
    else if i = 4 then enc (s.getD 3 0) (s.getD 4 0) ^^^ d2
    else enc (s.getD (i - 1) 0) (s.getD i 0)

/-- An integer that equals `if p then 0 else -1` is zero exactly when `p`
holds, and is always one of 0 and -1. -/
theorem verify_consequences (r : Int) (p : Prop) [Decidable p]
    (h : r = if p then 0 else -1) : (r = 0 ↔ p) ∧ (r = 0 ∨ r = -1) := by
  by_cases hp : p
  · simp [h, hp]
  · simp [h, hp]

/-- C3: `crypto_verify_16` and `crypto_verify_32` return 0 iff all 16
(resp. 32) byte pairs of their inputs are equal and -1 otherwise; the result
is the OR-accumulation of the XOR difference of every byte pair (the
`verifyFold` accumulator ranges over all positions) with a single final
branch, so no early exit can occur. -/
theorem C3_constant_time_verify (x y u v : List Nat)
    (h16 : ∀ i, i < 16 → x.getD i 0 < 256 ∧ y.getD i 0 < 256)
    (h32 : ∀ i, i < 32 → u.getD i 0 < 256 ∧ v.getD i 0 < 256) :
    ((crypto_verify_16 x y = 0 ↔ ∀ i, i < 16 → x.getD i 0 = y.getD i 0)
      ∧ (crypto_verify_16 x y = 0 ∨ crypto_verify_16 x y = -1))
    ∧ ((crypto_verify_32 u v = 0 ↔ ∀ i, i < 32 → u.getD i 0 = v.getD i 0)
      ∧ (crypto_verify_32 u v = 0 ∨ crypto_verify_32 u v = -1)) :=
  ⟨verify_consequences _ _ (crypto_verify_16_eq x y h16),
   verify_consequences _ _ (crypto_verify_32_eq u v h32)⟩

/-- Witness for C3 at concrete byte buffers (one equal pair, one differing
pair). -/
theorem C3_constant_time_verify_witness :
    (∀ i, i < 16 → (List.replicate 16 3).getD i 0 < 256
        ∧ (List.replicate 16 3).getD i 0 < 256)
    ∧ (((crypto_verify_16 (List.replicate 16 3) (List.replicate 16 3) = 0
          ↔ ∀ i, i < 16 → (List.replicate 16 3).getD i 0
              = (List.replicate 16 3).getD i 0)
        ∧ (crypto_verify_16 (List.replicate 16 3) (List.replicate 16 3) = 0
          ∨ crypto_verify_16 (List.replicate 16 3) (List.replicate 16 3) = -1))
      ∧ ((crypto_verify_32 (List.replicate 32 5) (List.replicate 32 9) = 0
          ↔ ∀ i, i < 32 → (List.replicate 32 5).getD i 0
              = (List.replicate 32 9).getD i 0)
        ∧ (crypto_verify_32 (List.replicate 32 5) (List.replicate 32 9) = 0
          ∨ crypto_verify_32 (List.replicate 32 5) (List.replicate 32 9) = -1))) :=
  ⟨by decide,
   C3_constant_time_verify (List.replicate 16 3) (List.replicate 16 3)
     (List.replicate 32 5) (List.replicate 32 9) (by decide) (by decide)⟩

/-- C7: on an 8-lane state, `aegis128x2_update` computes, for every lane,
the single AES round of the lane's neighbor combined with the lane itself,
with the two absorbed blocks XORed into lanes 0 and 4 — the per-lane
description `aegis128x2_update_spec` — and it is a pure function of the
state and the input blocks, for every round primitive `enc`. -/
theorem C7_aegis128x2_update_struct (enc : Nat → Nat → Nat) (s : List Nat)
    (d1 d2 : Nat) (hs : s.length = 8) :
    aegis128x2_update enc s d1 d2 = aegis128x2_update_spec enc s d1 d2 := by
  rcases s with _ | ⟨x0, _ | ⟨x1, _ | ⟨x2, _ | ⟨x3, _ | ⟨x4, _ | ⟨x5, _ | ⟨x6, _ | ⟨x7, _ | ⟨x8, t⟩⟩⟩⟩⟩⟩⟩⟩⟩ <;>
    simp only [List.length_cons, List.length_nil] at hs <;>
    first
    | omega
    | rfl

/-- Witness for C7 at a concrete state, concrete blocks and a concrete round
primitive. -/
theorem C7_aegis128x2_update_struct_witness :
    ([1, 2, 3, 4, 5, 6, 7, 8] : List Nat).length = 8
    ∧ aegis128x2_update (fun a b => 2 * a + b) [1, 2, 3, 4, 5, 6, 7, 8] 9 11
      = aegis128x2_update_spec (fun a b => 2 * a + b) [1, 2, 3, 4, 5, 6, 7, 8] 9 11 :=
  ⟨by decide,
   C7_aegis128x2_update_struct (fun a b => 2 * a + b) [1, 2, 3, 4, 5, 6, 7, 8] 9 11
     (by decide)⟩

/-- C5: the HiAE-family wrappers reject invalid inputs before any work —
`crypto_aead_encrypt` returns -1 with nothing written when `c`, `clen`,
`npub` or `k` is NULL, when `m` is NULL with `mlen > 0`, or when `ad` is
NULL with `adlen > 0`; `crypto_aead_decrypt` returns -1 with nothing written
when `c`, `npub` or `k` is NULL, when `clen < 16`, or when `m` is NULL
while `clen - 16 > 0`. -/
theorem C5_invalid_input_rejection (R : Nat → Nat → Nat)
    (cNull clenNull mNull mlenNull : Bool)
    (m ad c npub k : Option (List Nat)) (mlen adlen clen : Nat) :
    ((cNull = true ∨ clenNull = true ∨ npub = none ∨ k = none) →
        HiAE.crypto_aead_encrypt R cNull clenNull m mlen ad adlen npub k
          = ⟨-1, none, none⟩)
    ∧ ((0 < mlen ∧ m = none) →
        HiAE.crypto_aead_encrypt R cNull clenNull m mlen ad adlen npub k
          = ⟨-1, none, none⟩)
    ∧ ((0 < adlen ∧ ad = none) →
        HiAE.crypto_aead_encrypt R cNull clenNull m mlen ad adlen npub k
          = ⟨-1, none, none⟩)
    ∧ ((c = none ∨ npub = none ∨ k = none) →
        HiAE.crypto_aead_decrypt R mNull mlenNull c clen ad adlen npub k
          = ⟨-1, none, none⟩)
    ∧ (clen < 16 →
        HiAE.crypto_aead_decrypt R mNull mlenNull c clen ad adlen npub k
          = ⟨-1, none, none⟩)
    ∧ ((0 < clen - 16 ∧ mNull = true) →
        HiAE.crypto_aead_decrypt R mNull mlenNull c clen ad adlen npub k
          = ⟨-1, none, none⟩) := by
  refine ⟨?_, ?_, ?_, ?_, ?_, ?_⟩
  · intro h
    simp only [HiAE.crypto_aead_encrypt, if_pos h]
  · intro h
    by_cases h1 : cNull = true ∨ clenNull = true ∨ npub = none ∨ k = none
    · simp only [HiAE.crypto_aead_encrypt, if_pos h1]
    · simp only [HiAE.crypto_aead_encrypt, if_neg h1, if_pos h]
  · intro h
    by_cases h1 : cNull = true ∨ clenNull = true ∨ npub = none ∨ k = none
    · simp only [HiAE.crypto_aead_encrypt, if_pos h1]
    · by_cases h2 : 0 < mlen ∧ m = none
      · simp only [HiAE.crypto_aead_encrypt, if_neg h1, if_pos h2]
      · simp only [HiAE.crypto_aead_encrypt, if_neg h1, if_neg h2, if_pos h]
  · intro h
    simp only [HiAE.crypto_aead_decrypt, if_pos h]
  · intro h
    by_cases h1 : c = none ∨ npub = none ∨ k = none
    · simp only [HiAE.crypto_aead_decrypt, if_pos h1]
    · simp only [HiAE.crypto_aead_decrypt, if_neg h1, if_pos h]
  · intro h
    by_cases h1 : c = none ∨ npub = none ∨ k = none
    · simp only [HiAE.crypto_aead_decrypt, if_pos h1]
    · by_cases h2 : clen < 16
      · simp only [HiAE.crypto_aead_decrypt, if_neg h1, if_pos h2]
      · simp only [HiAE.crypto_aead_decrypt, if_neg h1, if_neg h2, if_pos h]

/-- Witness for C5: a NULL `clen` on encrypt and a too-short ciphertext on
decrypt are rejected at a concrete call. -/
theorem C5_invalid_input_rejection_witness :
    ((true : Bool) = true ∨ (false : Bool) = true
        ∨ (some (List.replicate 16 2) : Option (List Nat)) = none
        ∨ (some (List.replicate 16 1) : Option (List Nat)) = none)
    ∧ (5 : Nat) < 16
    ∧ HiAE.crypto_aead_encrypt (fun a b => a ^^^ b) true false (some [1]) 1
        (some []) 0 (some (List.replicate 16 2)) (some (List.replicate 16 1))
      = ⟨-1, none, none⟩
    ∧ HiAE.crypto_aead_decrypt (fun a b => a ^^^ b) false false (some [1, 2, 3]) 5
        (some []) 0 (some (List.replicate 16 2)) (some (List.replicate 16 1))
      = ⟨-1, none, none⟩ :=
  ⟨Or.inl rfl, by decide,
   (C5_invalid_input_rejection (fun a b => a ^^^ b) true false false false
      (some [1]) (some []) (some [1, 2, 3]) (some (List.replicate 16 2))
      (some (List.replicate 16 1)) 1 0 5).1 (Or.inl rfl),
   (C5_invalid_input_rejection (fun a b => a ^^^ b) true false false false
      (some [1]) (some []) (some [1, 2, 3]) (some (List.replicate 16 2))
      (some (List.replicate 16 1)) 1 0 5).2.2.2.2.1 (by decide)⟩

/-- C1: round trip — for every key and nonce of the fixed 16-byte lengths
and all byte sequences `ad` and `m`, a successful `crypto_aead_encrypt`
followed by `crypto_aead_decrypt` on its ciphertext-plus-tag output and
reported length returns 0 and recovers the plaintext byte for byte and in
length; stated for the HiAE-family wrapper (over any round primitive `R`)
and for the AES-128-GCM wrapper (over any EVP keystream/tag oracles of the
right lengths). -/
theorem C1_round_trip :
    (∀ (R : Nat → Nat → Nat) (k n m ad : List Nat),
      k.length = 16 → n.length = 16 →
        HiAE.crypto_aead_encrypt R false false (some m) m.length (some ad)
            ad.length (some n) (some k)
          = ⟨0, some ((HiAE_encrypt R k n m ad).2.1 ++ (HiAE_encrypt R k n m ad).2.2),
              some (m.length + 16)⟩
        ∧ HiAE.crypto_aead_decrypt R false false
            (some ((HiAE_encrypt R k n m ad).2.1 ++ (HiAE_encrypt R k n m ad).2.2))
            (m.length + 16) (some ad) ad.length (some n) (some k)
          = ⟨0, some m, some m.length⟩)
    ∧ (∀ (ks : List Nat → List Nat → Nat → List Nat)
        (gt : List Nat → List Nat → List Nat → List Nat → List Nat)
        (k npub ad m : List Nat),
      (∀ a b l, (ks a b l).length = l) → (∀ a b u v, (gt a b u v).length = 16) →
        AES128GCM.crypto_aead_decrypt ks gt k npub ad
            ((AES128GCM.crypto_aead_encrypt ks gt k npub ad m).cWritten.getD [])
            (m.length + 16)
          = ⟨0, some m, some m.length⟩) := by
  constructor
  · intro R k n m ad hk hn
    refine ⟨hiae_wrapper_encrypt R k n m ad hk hn, ?_⟩
    have h := hiae_wrapper_roundtrip R k n m ad false hk hn
    simpa using h
  · intro ks gt k npub ad m hks hgt
    have h := gcm_roundtrip ks gt k npub ad m hks hgt
    simpa [AES128GCM.crypto_aead_encrypt] using h

/-- Witness for C1 at a concrete key, nonce, AD and plaintext. -/
theorem C1_round_trip_witness :
    (List.replicate 16 1 : List Nat).length = 16
    ∧ (List.replicate 16 2 : List Nat).length = 16
    ∧ HiAE.crypto_aead_decrypt (fun a b => a ^^^ 2 * b) false false
        (some ((HiAE_encrypt (fun a b => a ^^^ 2 * b) (List.replicate 16 1)
              (List.replicate 16 2) [10, 20, 30] [7]).2.1
            ++ (HiAE_encrypt (fun a b => a ^^^ 2 * b) (List.replicate 16 1)
              (List.replicate 16 2) [10, 20, 30] [7]).2.2))
        ([10, 20, 30].length + 16) (some [7]) [7].length
        (some (List.replicate 16 2)) (some (List.replicate 16 1))
      = ⟨0, some [10, 20, 30], some [10, 20, 30].length⟩
    ∧ AES128GCM.crypto_aead_decrypt (fun _ _ l => List.replicate l 7)
        (fun _ _ _ _ => List.replicate 16 9) [1] [2] [3] ((AES128GCM.crypto_aead_encrypt
          (fun _ _ l => List.replicate l 7) (fun _ _ _ _ => List.replicate 16 9)
          [1] [2] [3] [10, 20, 30]).cWritten.getD []) ([10, 20, 30].length + 16)
      = ⟨0, some [10, 20, 30], some [10, 20, 30].length⟩ :=
  ⟨by decide, by decide,
   ((C1_round_trip.1 (fun a b => a ^^^ 2 * b) (List.replicate 16 1)
      (List.replicate 16 2) [10, 20, 30] [7] (by decide) (by decide)).2),
   C1_round_trip.2 (fun _ _ l => List.replicate l 7) (fun _ _ _ _ => List.replicate 16 9)
     [1] [2] [3] [10, 20, 30] (fun _ _ l => by simp) (fun _ _ _ _ => by simp)⟩

/-- C4: on every successful encrypt call the output buffer holds exactly
`mlen` ciphertext bytes followed by a 16-byte tag, and the reported output
length is `mlen + 16`, for every plaintext length (including lengths that
are not a multiple of the 16-byte absorption rate — no padding bytes appear
in the ciphertext); stated for the HiAE-family wrapper (over any round
primitive) and for the AES-128-GCM wrapper (over any EVP keystream/tag
oracles of the right lengths). -/
theorem C4_output_length_contract :
    (∀ (R : Nat → Nat → Nat) (k n m ad : List Nat),
      k.length = 16 → n.length = 16 →
        (HiAE.crypto_aead_encrypt R false false (some m) m.length (some ad)
            ad.length (some n) (some k)).ret = 0
        ∧ (HiAE.crypto_aead_encrypt R false false (some m) m.length (some ad)
            ad.length (some n) (some k)).cWritten
          = some ((HiAE_encrypt R k n m ad).2.1 ++ (HiAE_encrypt R k n m ad).2.2)
        ∧ (HiAE_encrypt R k n m ad).2.1.length = m.length
        ∧ (HiAE_encrypt R k n m ad).2.2.length = 16
        ∧ (HiAE.crypto_aead_encrypt R false false (some m) m.length (some ad)
            ad.length (some n) (some k)).clenWritten = some (m.length + 16))
    ∧ (∀ (ks : List Nat → List Nat → Nat → List Nat)
        (gt : List Nat → List Nat → List Nat → List Nat → List Nat)
        (k npub ad m : List Nat),
      (∀ a b l, (ks a b l).length = l) → (∀ a b u v, (gt a b u v).length = 16) →
        (AES128GCM.crypto_aead_encrypt ks gt k npub ad m).ret = 0
        ∧ (AES128GCM.crypto_aead_encrypt ks gt k npub ad m).cWritten
          = some (xorBytes m (ks k npub m.length)
              ++ gt k npub ad (xorBytes m (ks k npub m.length)))
        ∧ (xorBytes m (ks k npub m.length)).length = m.length
        ∧ (gt k npub ad (xorBytes m (ks k npub m.length))).length = 16
        ∧ (AES128GCM.crypto_aead_encrypt ks gt k npub ad m).clenWritten
          = some (m.length + 16)) := by
  constructor
  · intro R k n m ad hk hn
    have he := hiae_wrapper_encrypt R k n m ad hk hn
    have hok := HiAE_encrypt_ok R k n m ad hk hn
    rw [he]
    exact ⟨rfl, rfl, hok.2.1, hok.2.2, rfl⟩
  · intro ks gt k npub ad m hks hgt
    refine ⟨rfl, rfl, ?_, hgt _ _ _ _, rfl⟩
    rw [length_xorBytes, hks]
    omega

/-- Witness for C4 at a plaintext whose length (5) is not a multiple of the
absorption rate, for both wrappers. -/
theorem C4_output_length_contract_witness :
    (List.replicate 16 1 : List Nat).length = 16
    ∧ (List.replicate 16 2 : List Nat).length = 16
    ∧ (HiAE_encrypt (fun a b => a ^^^ 2 * b) (List.replicate 16 1)
        (List.replicate 16 2) [1, 2, 3, 4, 5] []).2.1.length = [1, 2, 3, 4, 5].length
    ∧ (HiAE_encrypt (fun a b => a ^^^ 2 * b) (List.replicate 16 1)
        (List.replicate 16 2) [1, 2, 3, 4, 5] []).2.2.length = 16
    ∧ (HiAE.crypto_aead_encrypt (fun a b => a ^^^ 2 * b) false false
        (some [1, 2, 3, 4, 5]) [1, 2, 3, 4, 5].length (some ([] : List Nat)) 0
        (some (List.replicate 16 2)) (some (List.replicate 16 1))).clenWritten
      = some ([1, 2, 3, 4, 5].length + 16)
    ∧ (xorBytes [1, 2, 3, 4, 5]
        ((fun _ _ l => List.replicate l 7) [1] [2] [1, 2, 3, 4, 5].length)).length
      = [1, 2, 3, 4, 5].length
    ∧ (AES128GCM.crypto_aead_encrypt (fun _ _ l => List.replicate l 7)
        (fun _ _ _ _ => List.replicate 16 9) [1] [2] [3]
        [1, 2, 3, 4, 5]).clenWritten = some ([1, 2, 3, 4, 5].length + 16) := by
  have h := C4_output_length_contract.1 (fun a b => a ^^^ 2 * b)
    (List.replicate 16 1) (List.replicate 16 2) [1, 2, 3, 4, 5] []
    (by decide) (by decide)
  have hg := C4_output_length_contract.2 (fun _ _ l => List.replicate l 7)
    (fun _ _ _ _ => List.replicate 16 9) [1] [2] [3] [1, 2, 3, 4, 5]
    (fun _ _ l => by simp) (fun _ _ _ _ => by simp)
  exact ⟨by decide, by decide, h.2.2.1, h.2.2.2.1, h.2.2.2.2,
    hg.2.2.1, hg.2.2.2.2⟩

/-- C6: encrypting a zero-length plaintext with zero-length AD succeeds with
no ciphertext bytes and a 16-byte tag produced by the full finalization path
over the zero-length streams, and the reported length is 16; decrypting that
output succeeds with a zero-length plaintext and reported length 0; stated
for the HiAE-family wrapper and for the AES-128-GCM wrapper. -/
theorem C6_zero_length :
    (∀ (R : Nat → Nat → Nat) (k n : List Nat),
      k.length = 16 → n.length = 16 →
        HiAE.crypto_aead_encrypt R false false (some []) 0 (some []) 0
            (some n) (some k)
          = ⟨0, some (hFinalize R (adCore R (hInit R k n) []) 0 0), some 16⟩
        ∧ (hFinalize R (adCore R (hInit R k n) []) 0 0).length = 16
        ∧ HiAE.crypto_aead_decrypt R false false
            (some (hFinalize R (adCore R (hInit R k n) []) 0 0)) 16
            (some []) 0 (some n) (some k)
          = ⟨0, some [], some 0⟩)
    ∧ (∀ (ks : List Nat → List Nat → Nat → List Nat)
        (gt : List Nat → List Nat → List Nat → List Nat → List Nat)
        (k npub : List Nat),
      (∀ a b l, (ks a b l).length = l) → (∀ a b u v, (gt a b u v).length = 16) →
        AES128GCM.crypto_aead_encrypt ks gt k npub [] []
          = ⟨0, some (gt k npub [] []), some 16⟩
        ∧ (gt k npub [] []).length = 16
        ∧ AES128GCM.crypto_aead_decrypt ks gt k npub [] (gt k npub [] []) 16
          = ⟨0, some [], some 0⟩) := by
  constructor
  · intro R k n hk hn
    have he := hiae_wrapper_encrypt R k n [] [] hk hn
    have hd := hiae_wrapper_roundtrip R k n [] [] false hk hn
    have hcore : HiAE_encrypt R k n [] []
        = (0, [], hFinalize R (adCore R (hInit R k n) []) 0 0) := by
      simp only [HiAE_encrypt, if_pos (And.intro hk hn)]
      rfl
    rw [hcore] at he hd
    simp only [List.length_nil, List.nil_append] at he hd
    exact ⟨he, length_hFinalize R _ 0 0, by simpa using hd⟩
  · intro ks gt k npub hks hgt
    exact ⟨rfl, hgt _ _ _ _, gcm_roundtrip ks gt k npub [] [] hks hgt⟩

/-- Witness for C6 at a concrete key and nonce, for both wrappers. -/
theorem C6_zero_length_witness :
    (List.replicate 16 1 : List Nat).length = 16
    ∧ (List.replicate 16 2 : List Nat).length = 16
    ∧ HiAE.crypto_aead_decrypt (fun a b => a ^^^ 2 * b) false false
        (some (hFinalize (fun a b => a ^^^ 2 * b)
          (adCore (fun a b => a ^^^ 2 * b)
            (hInit (fun a b => a ^^^ 2 * b) (List.replicate 16 1)
              (List.replicate 16 2)) []) 0 0)) 16
        (some []) 0 (some (List.replicate 16 2)) (some (List.replicate 16 1))
      = ⟨0, some [], some 0⟩
    ∧ AES128GCM.crypto_aead_encrypt (fun _ _ l => List.replicate l 7)
        (fun _ _ _ _ => List.replicate 16 9) [1] [2] [] []
      = ⟨0, some (List.replicate 16 9), some 16⟩
    ∧ AES128GCM.crypto_aead_decrypt (fun _ _ l => List.replicate l 7)
        (fun _ _ _ _ => List.replicate 16 9) [1] [2] [] (List.replicate 16 9) 16
      = ⟨0, some [], some 0⟩ := by
  have hg := C6_zero_length.2 (fun _ _ l => List.replicate l 7)
    (fun _ _ _ _ => List.replicate 16 9) [1] [2]
    (fun _ _ l => by simp) (fun _ _ _ _ => by simp)
  exact ⟨by decide, by decide,
    (C6_zero_length.1 (fun a b => a ^^^ 2 * b) (List.replicate 16 1)
      (List.replicate 16 2) (by decide) (by decide)).2.2,
    hg.1, hg.2.2⟩

/-- C10: asymmetric NULL handling at the public interface — decrypt treats
the output-length pointer `mlen` as optional (a successful decryption still
returns 0 and simply omits the length report), while encrypt treats `clen`
as mandatory and returns -1 immediately, with nothing written, whenever it
is NULL. -/
theorem C10_asymmetric_null_handling :
    (∀ (R : Nat → Nat → Nat) (cNull : Bool) (m ad npub k : Option (List Nat))
        (mlen adlen : Nat),
      HiAE.crypto_aead_encrypt R cNull true m mlen ad adlen npub k
        = ⟨-1, none, none⟩)
    ∧ (∀ (R : Nat → Nat → Nat) (k n m ad : List Nat),
      k.length = 16 → n.length = 16 →
        HiAE.crypto_aead_decrypt R false true
            (some ((HiAE_encrypt R k n m ad).2.1 ++ (HiAE_encrypt R k n m ad).2.2))
            (m.length + 16) (some ad) ad.length (some n) (some k)
          = ⟨0, some m, none⟩) := by
  constructor
  · intro R cNull m ad npub k mlen adlen
    simp [HiAE.crypto_aead_encrypt]
  · intro R k n m ad hk hn
    have h := hiae_wrapper_roundtrip R k n m ad true hk hn
    simpa using h

/-- Witness for C10 at concrete inputs: a NULL `clen` is rejected, and a
successful decrypt with NULL `mlen` still returns the plaintext. -/
theorem C10_asymmetric_null_handling_witness :
    HiAE.crypto_aead_encrypt (fun a b => a ^^^ 2 * b) false true (some [1]) 1
        (some []) 0 (some (List.replicate 16 2)) (some (List.replicate 16 1))
      = ⟨-1, none, none⟩
    ∧ (List.replicate 16 1 : List Nat).length = 16
    ∧ HiAE.crypto_aead_decrypt (fun a b => a ^^^ 2 * b) false true
        (some ((HiAE_encrypt (fun a b => a ^^^ 2 * b) (List.replicate 16 1)
              (List.replicate 16 2) [4, 5] []).2.1
            ++ (HiAE_encrypt (fun a b => a ^^^ 2 * b) (List.replicate 16 1)
              (List.replicate 16 2) [4, 5] []).2.2))
        ([4, 5].length + 16) (some ([] : List Nat)) 0
        (some (List.replicate 16 2)) (some (List.replicate 16 1))
      = ⟨0, some [4, 5], none⟩ :=
  ⟨C10_asymmetric_null_handling.1 (fun a b => a ^^^ 2 * b) false (some [1])
     (some []) (some (List.replicate 16 2)) (some (List.replicate 16 1)) 1 0,
   by decide,
   C10_asymmetric_null_handling.2 (fun a b => a ^^^ 2 * b) (List.replicate 16 1)
     (List.replicate 16 2) [4, 5] [] (by decide) (by decide)⟩

theorem hFinalize_getD_lt (R : Nat → Nat → Nat) (s : HState)
    (adlen mlen i : Nat) : (hFinalize R s adlen mlen).getD i 0 < 256 := by
  simp only [hFinalize]
  exact natToBytes_getD_lt _ _ _

/-- The modelled HiAE core on a tag that differs from the recomputed one at
some byte position: verification fails and no plaintext is returned. -/
theorem HiAE_decrypt_mismatch (R : Nat → Nat → Nat) (k n c tag ad : List Nat)
    (j : Nat) (hk : k.length = 16) (hn : n.length = 16) (hj : j < 16)
    (htb : ∀ i, i < 16 → tag.getD i 0 < 256)
    (hne : tag.getD j 0
      ≠ (hFinalize R (decGo R c.length (adCore R (hInit R k n) ad) c).2
          ad.length c.length).getD j 0) :
    HiAE_decrypt R k n c tag ad = (-1, []) := by
  have hb : ∀ i, i < 16 →
      (hFinalize R (decGo R c.length (adCore R (hInit R k n) ad) c).2
        ad.length c.length).getD i 0 < 256 ∧ tag.getD i 0 < 256 :=
    fun i hi => ⟨hFinalize_getD_lt R _ _ _ i, htb i hi⟩
  have hv := crypto_verify_16_eq _ tag hb
  have hnall : ¬∀ i, i < 16 →
      (hFinalize R (decGo R c.length (adCore R (hInit R k n) ad) c).2
        ad.length c.length).getD i 0 = tag.getD i 0 :=
    fun hall => hne ((hall j hj).symm)
  rw [if_neg hnall] at hv
  simp only [HiAE_decrypt, if_pos (And.intro hk hn), hv]
  norm_num

/-- C2 counterexample: a concrete AES-128-GCM decrypt call whose supplied tag
does not match the recomputed tag returns -1 yet has written the candidate
plaintext bytes into the caller's buffer `m` — the streamed
`EVP_DecryptUpdate` output precedes the tag check. -/
theorem C2_counterexample :
    (AES128GCM.crypto_aead_decrypt (fun _ _ l => List.replicate l 7)
        (fun _ _ _ _ => List.replicate 16 9) [1] [2] []
        ([1, 2, 3] ++ List.replicate 16 1) 19).ret = -1
    ∧ (AES128GCM.crypto_aead_decrypt (fun _ _ l => List.replicate l 7)
        (fun _ _ _ _ => List.replicate 16 9) [1] [2] []
        ([1, 2, 3] ++ List.replicate 16 1) 19).mWritten = some [6, 5, 4] := by
  decide

/-- C2 as amended: the HiAE-family `crypto_aead_decrypt` returns a nonzero
result with no plaintext byte and no length written whenever it fails, and
in particular returns -1 on a tag mismatch; the AES-128-GCM
`crypto_aead_decrypt` on a tag mismatch likewise returns -1 and leaves
`*mlen` unwritten, but the candidate plaintext has already been written into
`m` by the streaming decrypt call that precedes the tag check. -/
theorem C2_no_plaintext_on_failure_amended :
    (∀ (R : Nat → Nat → Nat) (mNull mlenNull : Bool) (c ad npub k : Option (List Nat))
        (clen adlen : Nat),
      (HiAE.crypto_aead_decrypt R mNull mlenNull c clen ad adlen npub k).ret ≠ 0 →
        (HiAE.crypto_aead_decrypt R mNull mlenNull c clen ad adlen npub k).mWritten = none
        ∧ (HiAE.crypto_aead_decrypt R mNull mlenNull c clen ad adlen npub k).mlenWritten
            = none)
    ∧ (∀ (R : Nat → Nat → Nat) (k n c tag ad : List Nat) (j : Nat),
      k.length = 16 → n.length = 16 → j < 16 →
      (∀ i, i < 16 → tag.getD i 0 < 256) →
      tag.getD j 0
          ≠ (hFinalize R (decGo R c.length (adCore R (hInit R k n) ad) c).2
              ad.length c.length).getD j 0 →
        HiAE_decrypt R k n c tag ad = (-1, []))
    ∧ (∀ (ks : List Nat → List Nat → Nat → List Nat)
        (gt : List Nat → List Nat → List Nat → List Nat → List Nat)
        (k npub ad c : List Nat) (clen : Nat),
      16 ≤ clen →
      gt k npub ad (c.take (clen - 16)) ≠ (c.drop (clen - 16)).take 16 →
        AES128GCM.crypto_aead_decrypt ks gt k npub ad c clen
          = ⟨-1, some (xorBytes (c.take (clen - 16)) (ks k npub (clen - 16))), none⟩) := by
  refine ⟨?_, HiAE_decrypt_mismatch, gcm_mismatch⟩
  intro R mNull mlenNull c ad npub k clen adlen h
  simp only [HiAE.crypto_aead_decrypt] at h ⊢
  split_ifs at h ⊢ <;> simp_all

/-- Witness for the amended C2 at concrete inputs: a failing HiAE decrypt
writes nothing; a concrete HiAE tag mismatch returns `(-1, [])`; a concrete
GCM tag mismatch returns -1 with the candidate plaintext left in `m`. -/
theorem C2_no_plaintext_on_failure_amended_witness :
    (HiAE.crypto_aead_decrypt (fun a b => a ^^^ 2 * b) false false
        (some ([] : List Nat)) 0 (some ([] : List Nat)) 0
        (some (List.replicate 16 2)) (some (List.replicate 16 1))).mWritten = none
    ∧ (HiAE.crypto_aead_decrypt (fun a b => a ^^^ 2 * b) false false
        (some ([] : List Nat)) 0 (some ([] : List Nat)) 0
        (some (List.replicate 16 2)) (some (List.replicate 16 1))).mlenWritten = none
    ∧ HiAE_decrypt (fun a b => a ^^^ 2 * b) (List.replicate 16 1)
        (List.replicate 16 2) [9, 9] (List.replicate 16 0) [] = (-1, [])
    ∧ AES128GCM.crypto_aead_decrypt (fun _ _ l => List.replicate l 7)
        (fun _ _ _ _ => List.replicate 16 9) [1] [2] []
        ([1, 2, 3] ++ List.replicate 16 1) 19 = ⟨-1, some [6, 5, 4], none⟩ := by
  have h1 := C2_no_plaintext_on_failure_amended.1 (fun a b => a ^^^ 2 * b) false false
    (some ([] : List Nat)) (some ([] : List Nat)) (some (List.replicate 16 2))
    (some (List.replicate 16 1)) 0 0 (by decide)
  have h2 := C2_no_plaintext_on_failure_amended.2.1 (fun a b => a ^^^ 2 * b)
    (List.replicate 16 1) (List.replicate 16 2) [9, 9] (List.replicate 16 0) [] 0
    (by decide) (by decide) (by decide) (by decide) (by decide)
  have h3 := C2_no_plaintext_on_failure_amended.2.2 (fun _ _ l => List.replicate l 7)
    (fun _ _ _ _ => List.replicate 16 9) [1] [2] [] ([1, 2, 3] ++ List.replicate 16 1) 19
    (by decide) (by decide)
  exact ⟨h1.1, h1.2, h2, h3⟩

set_option maxRecDepth 100000 in
/-- C9 counterexample: a successful HiAE-family decrypt called with a NULL
`mlen` pointer returns 0 yet never assigns `*mlen`, so `*mlen` is not
assigned "exactly when the call returns 0". -/
theorem C9_counterexample :
    (HiAE.crypto_aead_decrypt (fun a b => a ^^^ 2 * b) false true
        (some ((HiAE_encrypt (fun a b => a ^^^ 2 * b) (List.replicate 16 1)
              (List.replicate 16 2) [5] []).2.1
            ++ (HiAE_encrypt (fun a b => a ^^^ 2 * b) (List.replicate 16 1)
              (List.replicate 16 2) [5] []).2.2))
        17 (some ([] : List Nat)) 0 (some (List.replicate 16 2))
        (some (List.replicate 16 1))).ret = 0
    ∧ (HiAE.crypto_aead_decrypt (fun a b => a ^^^ 2 * b) false true
        (some ((HiAE_encrypt (fun a b => a ^^^ 2 * b) (List.replicate 16 1)
              (List.replicate 16 2) [5] []).2.1
            ++ (HiAE_encrypt (fun a b => a ^^^ 2 * b) (List.replicate 16 1)
              (List.replicate 16 2) [5] []).2.2))
        17 (some ([] : List Nat)) 0 (some (List.replicate 16 2))
        (some (List.replicate 16 1))).mlenWritten = none := by
  decide

/-- C9 as amended: on every HiAE-family decrypt call returning nonzero,
`*mlen` is never written; `*mlen` is assigned `clen - 16` exactly when the
call returns 0 and the `mlen` pointer is non-NULL; the AES-128-GCM decrypt
likewise writes `*mlen = clen - 16` exactly on the calls that return 0. -/
theorem C9_mlen_write_amended :
    (∀ (R : Nat → Nat → Nat) (mNull mlenNull : Bool) (c ad npub k : Option (List Nat))
        (clen adlen : Nat),
      ((HiAE.crypto_aead_decrypt R mNull mlenNull c clen ad adlen npub k).ret ≠ 0 →
        (HiAE.crypto_aead_decrypt R mNull mlenNull c clen ad adlen npub k).mlenWritten
          = none)
      ∧ ((HiAE.crypto_aead_decrypt R mNull mlenNull c clen ad adlen npub k).ret = 0 →
        (HiAE.crypto_aead_decrypt R mNull mlenNull c clen ad adlen npub k).mlenWritten
          = if mlenNull = true then none else some (clen - 16)))
    ∧ (∀ (ks : List Nat → List Nat → Nat → List Nat)
        (gt : List Nat → List Nat → List Nat → List Nat → List Nat)
        (k npub ad c : List Nat) (clen : Nat),
      ((AES128GCM.crypto_aead_decrypt ks gt k npub ad c clen).ret ≠ 0 →
        (AES128GCM.crypto_aead_decrypt ks gt k npub ad c clen).mlenWritten = none)
      ∧ ((AES128GCM.crypto_aead_decrypt ks gt k npub ad c clen).ret = 0 →
        (AES128GCM.crypto_aead_decrypt ks gt k npub ad c clen).mlenWritten
          = some (clen - 16))) := by
  constructor
  · intro R mNull mlenNull c ad npub k clen adlen
    simp only [HiAE.crypto_aead_decrypt]
    split_ifs <;> constructor <;> intro h <;> simp_all
  · intro ks gt k npub ad c clen
    simp only [AES128GCM.crypto_aead_decrypt]
    split_ifs <;> constructor <;> intro h <;> simp_all

set_option maxRecDepth 100000 in
/-- Witness for the amended C9: a failing call leaves `*mlen` unwritten, a
successful call with non-NULL `mlen` writes `clen - 16`, and a failing GCM
call leaves `*mlen` unwritten. -/
theorem C9_mlen_write_amended_witness :
    (HiAE.crypto_aead_decrypt (fun a b => a ^^^ 2 * b) false false
        (some ([] : List Nat)) 0 (some ([] : List Nat)) 0
        (some (List.replicate 16 2)) (some (List.replicate 16 1))).mlenWritten = none
    ∧ (HiAE.crypto_aead_decrypt (fun a b => a ^^^ 2 * b) false false
        (some ((HiAE_encrypt (fun a b => a ^^^ 2 * b) (List.replicate 16 1)
              (List.replicate 16 2) [5] []).2.1
            ++ (HiAE_encrypt (fun a b => a ^^^ 2 * b) (List.replicate 16 1)
              (List.replicate 16 2) [5] []).2.2))
        17 (some ([] : List Nat)) 0 (some (List.replicate 16 2))
        (some (List.replicate 16 1))).mlenWritten = some 1
    ∧ (AES128GCM.crypto_aead_decrypt (fun _ _ l => List.replicate l 7)
        (fun _ _ _ _ => List.replicate 16 9) [1] [2] []
        ([1, 2, 3] ++ List.replicate 16 1) 19).mlenWritten = none := by
  refine ⟨?_, ?_, ?_⟩
  · exact (C9_mlen_write_amended.1 (fun a b => a ^^^ 2 * b) false false
      (some ([] : List Nat)) (some ([] : List Nat)) (some (List.replicate 16 2))
      (some (List.replicate 16 1)) 0 0).1 (by decide)
  · exact (C9_mlen_write_amended.1 (fun a b => a ^^^ 2 * b) false false
      (some ((HiAE_encrypt (fun a b => a ^^^ 2 * b) (List.replicate 16 1)
            (List.replicate 16 2) [5] []).2.1
          ++ (HiAE_encrypt (fun a b => a ^^^ 2 * b) (List.replicate 16 1)
            (List.replicate 16 2) [5] []).2.2))
      (some ([] : List Nat)) (some (List.replicate 16 2))
      (some (List.replicate 16 1)) 17 0).2 (by decide)
  · exact (C9_mlen_write_amended.2 (fun _ _ l => List.replicate l 7)
      (fun _ _ _ _ => List.replicate 16 9) [1] [2] []
      ([1, 2, 3] ++ List.replicate 16 1) 19).1 (by decide)
